import Mathlib

/-!
Verification development for the `webscrapping-` repository.

The repository contains two crawler variants (`main.py` with a breadth-first
frontier, `app.py` with recursive link-following) plus an unrelated PDF
splitting script.  This file gives a shallow embedding of the crawl-and-segment
engine: the chunk identifier (SHA-256 truncated to 16 hex characters), the
content segmenter with its hierarchy context, the table flattener, the URL
admission filters, and the crawl loops of both variants, together with proofs
of the claimed properties.

HTML parsing is out of scope per the design (the parse tree is consumed only
through a capability contract: find-by-tag, get-text, get-attribute), so a
page is modelled as the data that contract delivers: the title text, the list
of (tag, extracted text) pairs that `find_all` of the allowed tag set returns
in document order, the rows-of-cell-texts of each table, and the list of
resolved link targets.  Network fetching is modelled as a function from URL to
`Option Page` (`none` = transport/HTTP failure), and timestamps as an input.
-/

namespace Webscrap

/-! ## SHA-256 (as used by `hashlib.sha256` in both variants)

A faithful implementation over lists of byte values (`Nat < 256`), with 32-bit
words represented as `Nat` reduced mod `2^32`.  -/

/-- Reduce to a 32-bit word. -/
def w32 (n : Nat) : Nat := n % 4294967296

/-- Right rotation of a 32-bit word. -/
def rotr (x n : Nat) : Nat := x / 2 ^ n + x % 2 ^ n * 2 ^ (32 - n)

/-- Bitwise complement of a 32-bit word. -/
def bnot32 (x : Nat) : Nat := 4294967295 - x

/-- SHA-256 round constants (decimal rendering of the standard table). -/
def sha256K : List Nat :=
  [1116352408, 1899447441, 3049323471, 3921009573,
   961987163, 1508970993, 2453635748, 2870763221,
   3624381080, 310598401, 607225278, 1426881987,
   1925078388, 2162078206, 2614888103, 3248222580,
   3835390401, 4022224774, 264347078, 604807628,
   770255983, 1249150122, 1555081692, 1996064986,
   2554220882, 2821834349, 2952996808, 3210313671,
   3336571891, 3584528711, 113926993, 338241895,
   666307205, 773529912, 1294757372, 1396182291,
   1695183700, 1986661051, 2177026350, 2456956037,
   2730485921, 2820302411, 3259730800, 3345764771,
   3516065817, 3600352804, 4094571909, 275423344,
   430227734, 506948616, 659060556, 883997877,
   958139571, 1322822218, 1537002063, 1747873779,
   1955562222, 2024104815, 2227730452, 2361852424,
   2428436474, 2756734187, 3204031479, 3329325298]

/-- Working state of the SHA-256 compression function. -/
structure Sha256State where
  a : Nat
  b : Nat
  c : Nat
  d : Nat
  e : Nat
  f : Nat
  g : Nat
  h : Nat

/-- Initial hash value (decimal rendering of the standard words). -/
def sha256Init : Sha256State :=
  ⟨1779033703, 3144134277, 1013904242, 2773480762,
   1359893119, 2600822924, 528734635, 1541459225⟩

/-- Small sigma 0 of the message schedule. -/
def ssig0 (x : Nat) : Nat := (rotr x 7) ^^^ (rotr x 18) ^^^ (x / 2 ^ 3)

/-- Small sigma 1 of the message schedule. -/
def ssig1 (x : Nat) : Nat := (rotr x 17) ^^^ (rotr x 19) ^^^ (x / 2 ^ 10)

/-- Big sigma 0 of the compression function. -/
def bsig0 (x : Nat) : Nat := (rotr x 2) ^^^ (rotr x 13) ^^^ (rotr x 22)

/-- Big sigma 1 of the compression function. -/
def bsig1 (x : Nat) : Nat := (rotr x 6) ^^^ (rotr x 11) ^^^ (rotr x 25)

/-- Extend the 16 block words to the 64 words of the message schedule,
appending `fuel` further words. -/
def extendWords : Nat → List Nat → List Nat
  | 0, ws => ws
  | fuel + 1, ws =>
    let k := ws.length
    let w := w32 (ws.getD (k - 16) 0 + ssig0 (ws.getD (k - 15) 0) +
                  ws.getD (k - 7) 0 + ssig1 (ws.getD (k - 2) 0))
    extendWords fuel (ws ++ [w])

/-- One round of the SHA-256 compression function. -/
def sha256Round (st : Sha256State) (kw : Nat × Nat) : Sha256State :=
  let t1 := w32 (st.h + bsig1 st.e + ((st.e &&& st.f) ^^^ (bnot32 st.e &&& st.g)) +
                 kw.1 + kw.2)
  let t2 := w32 (bsig0 st.a + ((st.a &&& st.b) ^^^ (st.a &&& st.c) ^^^ (st.b &&& st.c)))
  ⟨w32 (t1 + t2), st.a, st.b, st.c, w32 (st.d + t1), st.e, st.f, st.g⟩

/-- Interpret four bytes as a big-endian 32-bit word. -/
def wordOfBytes : List Nat → Nat
  | [b0, b1, b2, b3] => ((b0 * 256 + b1) * 256 + b2) * 256 + b3
  | _ => 0

/-- Split a list into sublists of length `n`. -/
def chunksOfLen (n : Nat) : Nat → List Nat → List (List Nat)
  | 0, _ => []
  | _, [] => []
  | fuel + 1, l => l.take n :: chunksOfLen n fuel (l.drop n)

/-- Process one 64-byte block. -/
def sha256Block (st : Sha256State) (block : List Nat) : Sha256State :=
  let ws := extendWords 48 ((chunksOfLen 4 16 block).map wordOfBytes)
  let r := (sha256K.zip ws).foldl sha256Round st
  ⟨w32 (st.a + r.a), w32 (st.b + r.b), w32 (st.c + r.c), w32 (st.d + r.d),
   w32 (st.e + r.e), w32 (st.f + r.f), w32 (st.g + r.g), w32 (st.h + r.h)⟩

/-- SHA-256 padding: append `0x80`, zeros to 56 mod 64, then the 8-byte
big-endian bit length. -/
def sha256Pad (msg : List Nat) : List Nat :=
  let L := msg.length
  let zeros := (64 + 55 - L % 64) % 64
  let bits := 8 * L
  msg ++ [0x80] ++ List.replicate zeros 0 ++
    [56, 48, 40, 32, 24, 16, 8, 0].map (fun k => bits / 2 ^ k % 256)

/-- The eight words of the SHA-256 digest of a byte list. -/
def sha256Words (msg : List Nat) : List Nat :=
  let padded := sha256Pad msg
  let st := (chunksOfLen 64 (padded.length / 64) padded).foldl sha256Block sha256Init
  [st.a, st.b, st.c, st.d, st.e, st.f, st.g, st.h]

/-- The sixteen lower-case hex digits. -/
def hexDigits : List Char := "0123456789abcdef".toList

/-- Hex digit of a nibble. -/
def hexChar (n : Nat) : Char := hexDigits.getD (n % 16) '0'

/-- Fixed-width (8 hex characters) rendering of a 32-bit word. -/
def toHexChars8 (n : Nat) : List Char :=
  [hexChar (n / 16 ^ 7), hexChar (n / 16 ^ 6), hexChar (n / 16 ^ 5),
   hexChar (n / 16 ^ 4), hexChar (n / 16 ^ 3), hexChar (n / 16 ^ 2),
   hexChar (n / 16 ^ 1), hexChar n]

/-- The 64 hex characters of the SHA-256 digest (`hexdigest()` in Python). -/
def sha256HexChars (msg : List Nat) : List Char :=
  ((sha256Words msg).map toHexChars8).flatten

/-- UTF-8 bytes of one character (Python `str.encode("utf-8")`, per scalar). -/
def utf8Bytes (c : Char) : List Nat :=
  let n := c.toNat
  if n < 128 then [n]
  else if n < 2048 then [192 + n / 64, 128 + n % 64]
  else if n < 65536 then [224 + n / 4096, 128 + n / 64 % 64, 128 + n % 64]
  else [240 + n / 262144, 128 + n / 4096 % 64, 128 + n / 64 % 64, 128 + n % 64]

/-- UTF-8 encoding of a string, as Python `text.encode("utf-8")`. -/
def encodeUTF8 (s : String) : List Nat := (s.toList.map utf8Bytes).flatten

/-- Hex digest of the SHA-256 of a string's UTF-8 bytes
(`hashlib.sha256(text.encode("utf-8")).hexdigest()`). -/
def sha256Hex (s : String) : List Char := sha256HexChars (encodeUTF8 s)

/-- `main.py` `GovernanceContentExtractor.generate_chunk_id`:
`hashlib.sha256(text.encode("utf-8")).hexdigest()[:16]`. -/
def generate_chunk_id (text : String) : String := String.mk ((sha256Hex text).take 16)

/-- `app.py` `chunk_id`: `hashlib.sha256(text.encode()).hexdigest()[:16]`
(Python `encode()` defaults to UTF-8). -/
def chunk_id (text : String) : String := String.mk ((sha256Hex text).take 16)

/-! ## URL components (`urllib.parse.urlparse` on absolute URLs)

Both variants use `urlparse(url).netloc` and (in `app.py`) `urlparse(url).path`.
We model the behaviour of `urlparse` on the absolute URLs the crawl handles:
after the `://` scheme separator, the authority extends to the first of
`/ ? #` and the path from there to the first of `? #`; without a scheme
separator the netloc is empty and the whole prefix before `? #` is the path. -/

/-- Lower-casing as Python `str.lower()` does on the ASCII range. -/
def strLower (s : String) : String := String.mk (s.toList.map Char.toLower)

/-- Python `s.startswith(p)`. -/
def strStartsWith (s p : String) : Bool := p.toList.isPrefixOf s.toList

/-- Python `s.endswith(p)`. -/
def strEndsWith (s p : String) : Bool := p.toList.isSuffixOf s.toList

/-- The characters after the first `://` marker, when present. -/
def afterMarker : List Char → Option (List Char)
  | [] => none
  | c :: rest =>
    if [':', '/', '/'].isPrefixOf (c :: rest) then some (rest.drop 2)
    else afterMarker rest

/-- The part of a URL after the first `://`, when present. -/
def schemeRest (u : String) : Option String :=
  (afterMarker u.toList).map String.mk

/-- `urlparse(u).netloc`. -/
def netlocOf (u : String) : String :=
  match schemeRest u with
  | some rest => String.mk (rest.toList.takeWhile fun c => c ≠ '/' && c ≠ '?' && c ≠ '#')
  | none => ""

/-- `urlparse(u).path`. -/
def pathOf (u : String) : String :=
  match schemeRest u with
  | some rest =>
    String.mk (((rest.toList.dropWhile fun c => c ≠ '/' && c ≠ '?' && c ≠ '#').takeWhile
      fun c => c ≠ '?' && c ≠ '#'))
  | none => String.mk (u.toList.takeWhile fun c => c ≠ '?' && c ≠ '#')

/-- `url.split("#")[0]`: drop the fragment. -/
def stripFrag (u : String) : String :=
  String.mk (u.toList.takeWhile fun c => c ≠ '#')

/-- Python's substring test `needle in hay` on the underlying characters. -/
def charsContain (needle : List Char) : List Char → Bool
  | [] => needle.isEmpty
  | c :: rest => needle.isPrefixOf (c :: rest) || charsContain needle rest

/-- Python's substring test `needle in hay` for strings. -/
def containsSub (hay needle : String) : Bool := charsContain needle.toList hay.toList

/-! ## Parsed pages

A page models what the BeautifulSoup capability contract delivers after the
noise filter has removed `script`/`style`/`noscript`/`iframe` nodes:
the stripped title text (when a `title` element exists), the `(name, text)`
pairs returned by `find_all` over a tag set in document order (with
`get_text(" ", strip=True)` already applied), each table's rows of cell texts
(`th`/`td` in column order, as `find_all("tr")` / `find_all(["th","td"])`
deliver them), and the href targets of anchors already resolved by `urljoin`. -/

/-- One element as seen through `find_all` + `get_text(" ", strip=True)`. -/
structure Element where
  tag : String
  text : String
  deriving DecidableEq, Repr

/-- A fetched, noise-filtered page. -/
structure Page where
  title : Option String
  elements : List Element
  tables : List (List (List String))
  links : List String
  deriving DecidableEq, Repr

/-! ## `main.py`: `GovernanceContentExtractor` -/

/-- The chunk record built by `main.py`'s `extract_page_content`. -/
structure Chunk where
  source_url : String
  document_title : String
  organization : String
  document_type : String
  section_title : Option String
  section_level : Option String
  chapter : Option String
  article : Option String
  content_type : String
  text : String
  char_count : Nat
  chunk_id : String
  extracted_at : String
  deriving DecidableEq, Repr

/-- `allowed_tags = ["h1","h2","h3","h4","p","li","td","dd"]`. -/
def allowed_tags : List String := ["h1", "h2", "h3", "h4", "p", "li", "td", "dd"]

/-- The heading tag set `{"h1","h2","h3","h4"}`. -/
def headingTags : List String := ["h1", "h2", "h3", "h4"]

/-- Mutable state of the element loop in `extract_page_content`. -/
structure SegState where
  current_section : Option String
  current_section_level : Option String
  current_chapter : Option String
  current_article : Option String
  chunks : List Chunk
  deriving Repr

/-- One iteration of the element loop of `extract_page_content` in `main.py`.
Note that after a heading updates the hierarchy variables the loop body still
falls through to `chunks.append`, so a sufficiently long heading also emits a
chunk (there is no `continue` in the heading branch). -/
def segStep (url doc_title ts : String) (st : SegState) (e : Element) : SegState :=
  let text := e.text
  if text = "" ∨ text.length < 20 then st
  else
    let st1 :=
      if headingTags.contains e.tag then
        { st with
          current_section := some text
          current_section_level := some e.tag
          current_chapter :=
            if strStartsWith (strLower text) "chapter" then some text else st.current_chapter
          current_article :=
            if strStartsWith (strLower text) "article" then some text else st.current_article }
      else st
    { st1 with chunks := st1.chunks ++ [{
        source_url := url
        document_title := doc_title
        organization := "Halows Co., Ltd."
        document_type := "governance_policy"
        section_title := st1.current_section
        section_level := st1.current_section_level
        chapter := st1.current_chapter
        article := st1.current_article
        content_type := e.tag
        text := text
        char_count := text.length
        chunk_id := generate_chunk_id text
        extracted_at := ts }] }

/-- `main.py` `extract_tables`: per `tr`, join nonempty cell lists with
`" | "`; join rows with newline. -/
def extract_tables (table : List (List String)) : String :=
  String.intercalate "\n"
    ((table.filter fun cells => !cells.isEmpty).map fun cells =>
      String.intercalate " | " cells)

/-- The table chunk built at the end of `extract_page_content`, stamped with
the hierarchy state left over from the element loop. -/
def tableChunk (url doc_title ts : String) (st : SegState) (ttext : String) : Chunk :=
  { source_url := url
    document_title := doc_title
    organization := "Halows Co., Ltd."
    document_type := "governance_policy"
    section_title := st.current_section
    section_level := st.current_section_level
    chapter := st.current_chapter
    article := st.current_article
    content_type := "table"
    text := ttext
    char_count := ttext.length
    chunk_id := generate_chunk_id ttext
    extracted_at := ts }

/-- `main.py` `extract_page_content`: title fallback, the element loop over
`find_all(allowed_tags)`, then the table loop over `find_all("table")`. -/
def extract_page_content (page : Page) (url ts : String) : List Chunk :=
  let doc_title := match page.title with | some t => t | none => "Unknown"
  let st := (page.elements.filter fun e => allowed_tags.contains e.tag).foldl
    (segStep url doc_title ts)
    ⟨none, none, none, none, []⟩
  st.chunks ++
    (((page.tables.map extract_tables).filter fun t => !(t == "")).map
      (tableChunk url doc_title ts st))

/-- The extension filter of `main.py`'s crawl:
`next_url.lower().endswith((".pdf", ".jpg", ".png"))` — note: applied to the
whole URL string, and only three extensions. -/
def mainBlockedUrl (u : String) : Bool :=
  [".pdf", ".jpg", ".png"].any fun ext => strEndsWith (strLower u) ext

/-- The domain-and-extension part of `main.py`'s link admission test. -/
def mainLinkOk (base u : String) : Bool :=
  netlocOf u == base && !mainBlockedUrl u

/-- State of `main.py`'s `crawl` loop, plus a trace of the URLs passed to
`fetch_page` (each entry is one `requests.get` call). -/
structure CrawlState where
  queue : List (String × Nat)
  visited : List String
  chunks : List Chunk
  fetched : List String
  deriving Repr

/-- One iteration of the `while queue` loop of `main.py`'s `crawl`;
`none` when the queue is empty and the loop exits. -/
def crawlStep (env : String → Option Page) (tsOf : String → String)
    (base : String) (max_depth : Nat) (s : CrawlState) : Option CrawlState :=
  match s.queue with
  | [] => none
  | (url, depth) :: rest =>
    if url ∈ s.visited ∨ max_depth < depth then
      some ⟨rest, s.visited, s.chunks, s.fetched⟩
    else
      let visited' := url :: s.visited
      match env url with
      | none => some ⟨rest, visited', s.chunks, s.fetched ++ [url]⟩
      | some page =>
        let enq := (page.links.filter fun u =>
          mainLinkOk base u && !visited'.contains u).map fun u => (u, depth + 1)
        some ⟨rest ++ enq, visited',
          s.chunks ++ extract_page_content page url (tsOf url),
          s.fetched ++ [url]⟩

/-- Run the crawl loop for at most `fuel` iterations. -/
def crawlRun (env : String → Option Page) (tsOf : String → String)
    (base : String) (max_depth : Nat) : Nat → CrawlState → CrawlState
  | 0, s => s
  | fuel + 1, s =>
    match crawlStep env tsOf base max_depth s with
    | none => s
    | some s' => crawlRun env tsOf base max_depth fuel s'

/-- Initial crawl state: frontier holds `(start_url, 0)`. -/
def crawlInit (start_url : String) : CrawlState := ⟨[(start_url, 0)], [], [], []⟩

/-- `main.py` `crawl`, with `base_domain = urlparse(start_url).netloc`. -/
def crawl (env : String → Option Page) (tsOf : String → String)
    (start_url : String) (max_depth fuel : Nat) : CrawlState :=
  crawlRun env tsOf (netlocOf start_url) max_depth fuel (crawlInit start_url)

/-- The links of the page a URL fetches (empty on fetch failure). -/
def pageLinks (env : String → Option Page) (u : String) : List String :=
  match env u with
  | some p => p.links
  | none => []

/-- The policy-admissible links of a page under `main.py`'s filter. -/
def admissibleLinks (env : String → Option Page) (base u : String) : List String :=
  (pageLinks env u).filter (mainLinkOk base)

/-- The URLs discoverable from the seed within `n` hops along admissible
links (the seed itself at hop 0). -/
def disc (env : String → Option Page) (base seed : String) : Nat → Finset String
  | 0 => {seed}
  | n + 1 => disc env base seed n ∪
      (disc env base seed n).biUnion fun u => (admissibleLinks env base u).toFinset

/-! ## `app.py`: recursive variant

`app.py` keeps module-level `visited_urls` and `chunks`, a `MAX_PAGES` cap of
25, a ten-extension block list applied to `urlparse(url).path.lower()`, and a
path-keyword allow list; links are followed by direct recursion. Its pages
additionally expose the `(get_text(), get_text(strip=True))` pairs of the
`footer`/`address`/`p` elements that `extract_metadata` scans for the
organization. -/

/-- A page as `app.py` consumes it. -/
structure AppPage where
  title : Option String
  orgTags : List (String × String)
  elements : List Element
  links : List String
  deriving DecidableEq, Repr

/-- `ALLOWED_PATH_KEYWORDS`. -/
def ALLOWED_PATH_KEYWORDS : List String := ["/governance", "/ir", "/policy", "/compliance"]

/-- `BLOCKED_EXTENSIONS`. -/
def BLOCKED_EXTENSIONS : List String :=
  [".pdf", ".jpg", ".jpeg", ".png", ".gif", ".zip", ".doc", ".docx", ".xls", ".xlsx"]

/-- `MAX_PAGES = 25`. -/
def MAX_PAGES : Nat := 25

/-- `app.py` `is_allowed_url`: exact host match, no blocked path extension,
and at least one allow-list keyword in the lower-cased path. -/
def is_allowed_url (url base_domain : String) : Bool :=
  if netlocOf url != base_domain then false
  else if BLOCKED_EXTENSIONS.any (fun ext => strEndsWith (strLower (pathOf url)) ext) then
    false
  else if !(ALLOWED_PATH_KEYWORDS.any fun k => containsSub (strLower (pathOf url)) k) then
    false
  else true

/-- The metadata record of `app.py` `extract_metadata`.  Note the title is
`None` (not `"Unknown"`) when the page has no title element. -/
structure AppMeta where
  source_url : String
  document_title : Option String
  organization : Option String
  document_type : String
  extracted_at : String
  deriving DecidableEq, Repr

/-- `app.py` `extract_metadata`. -/
def extract_metadata (page : AppPage) (url ts : String) : AppMeta :=
  { source_url := url
    document_title := page.title
    organization :=
      ((page.orgTags.find? fun t => containsSub t.1 "Co., Ltd").map fun t => t.2)
    document_type := "governance_policy"
    extracted_at := ts }

/-- The chunk record built by `app.py` `extract_page`. -/
structure AppChunk where
  source_url : String
  document_title : Option String
  organization : Option String
  document_type : String
  extracted_at : String
  section_title : Option String
  content_type : String
  text : String
  char_count : Nat
  chunk_id : String
  deriving DecidableEq, Repr

/-- One iteration of the element loop in `app.py` `extract_page`: threshold
30, headings `h1`–`h3` update `current_heading` and `continue` (no chunk). -/
def appSegStep (meta : AppMeta) (st : Option String × List AppChunk)
    (e : Element) : Option String × List AppChunk :=
  let text := e.text
  if text = "" ∨ text.length < 30 then st
  else if ["h1", "h2", "h3"].contains e.tag then (some text, st.2)
  else (st.1, st.2 ++ [{
    source_url := meta.source_url
    document_title := meta.document_title
    organization := meta.organization
    document_type := meta.document_type
    extracted_at := meta.extracted_at
    section_title := st.1
    content_type := e.tag
    text := text
    char_count := text.length
    chunk_id := chunk_id text }])

/-- The chunks one page contributes in `app.py` (the element loop of
`extract_page` over `find_all(["h1","h2","h3","p","li"])`). -/
def appSegment (page : AppPage) (url ts : String) : List AppChunk :=
  ((page.elements.filter fun e => ["h1", "h2", "h3", "p", "li"].contains e.tag).foldl
    (appSegStep (extract_metadata page url ts)) (none, [])).2

/-- The module-level mutable state of `app.py` (`visited_urls`, `chunks`),
plus the trace of URLs passed to `requests.get`. -/
structure AppState where
  visited : List String
  chunks : List AppChunk
  fetched : List String
  deriving Repr

/-- `app.py` `extract_page`: guard on visited/`MAX_PAGES`, mark visited,
fetch, segment, then recurse into each allowed fragment-stripped link.
The `fuel` argument bounds the recursion depth of the model; the Python
function recurses directly. -/
def extract_page (env : String → Option AppPage) (tsOf : String → String)
    (base : String) : Nat → String → AppState → AppState
  | 0, _, st => st
  | fuel + 1, url, st =>
    if url ∈ st.visited ∨ MAX_PAGES ≤ st.visited.length then st
    else
      let st1 : AppState := ⟨url :: st.visited, st.chunks, st.fetched ++ [url]⟩
      match env url with
      | none => st1
      | some page =>
        let st2 : AppState :=
          ⟨st1.visited, st1.chunks ++ appSegment page url (tsOf url), st1.fetched⟩
        (page.links.map stripFrag).foldl
          (fun acc v =>
            if is_allowed_url v base then extract_page env tsOf base fuel v acc else acc)
          st2

/-- `app.py` `main`: crawl from the seed with `base_domain` its netloc,
starting from empty module state. -/
def appCrawl (env : String → Option AppPage) (tsOf : String → String)
    (start_url : String) (fuel : Nat) : AppState :=
  extract_page env tsOf (netlocOf start_url) fuel start_url ⟨[], [], []⟩

/-- The document title `main.py` stamps on chunks: the title text or the
`"Unknown"` fallback. -/
def titleOr (page : Page) : String :=
  match page.title with
  | some t => t
  | none => "Unknown"

/-! ## Helper lemmas about the segmenters -/

theorem getD_mem {α : Type} (l : List α) (i : Nat) (d : α) (h : i < l.length) :
    l.getD i d ∈ l := by
  induction l generalizing i with
  | nil => simp at h
  | cons a t ih =>
    cases i with
    | zero => simp [List.getD]
    | succ j =>
      simp only [List.getD, List.getElem?_cons_succ] at *
      exact List.mem_cons_of_mem _ (ih j (by simpa using h))

theorem ne_empty_of_length (s : String) (h : s.length ≠ 0) : s ≠ "" := by
  intro he
  subst he
  simp at h

theorem seg_guard_false {t : String} (h : 20 ≤ t.length) :
    ¬(t = "" ∨ t.length < 20) := by
  rintro (rfl | hlt)
  · simp [String.length] at h
  · omega

/-- Every chunk produced by the element loop of `main.py` is either inherited
from the initial state or stems from one of the visited elements, with the
fields `extract_page_content` computes for it. -/
theorem mem_foldl_segStep (url dt ts : String) (l : List Element) (st : SegState)
    (c : Chunk) (hc : c ∈ (l.foldl (segStep url dt ts) st).chunks) :
    c ∈ st.chunks ∨ ∃ e ∈ l, c.text = e.text ∧ c.content_type = e.tag ∧
      20 ≤ c.text.length ∧ c.char_count = c.text.length ∧
      c.chunk_id = generate_chunk_id c.text ∧ c.document_title = dt ∧
      c.source_url = url ∧ c.extracted_at = ts := by
  induction l generalizing st with
  | nil => exact Or.inl hc
  | cons e tl ih =>
    rw [List.foldl_cons] at hc
    rcases ih (segStep url dt ts st e) hc with hmem | ⟨e', he', hrest⟩
    · unfold segStep at hmem
      by_cases hguard : e.text = "" ∨ e.text.length < 20
      · rw [if_pos hguard] at hmem
        exact Or.inl hmem
      · rw [if_neg hguard] at hmem
        have hlen : 20 ≤ e.text.length := by
          rcases Nat.lt_or_ge e.text.length 20 with h | h
          · exact absurd (Or.inr h) hguard
          · exact h
        by_cases htag : headingTags.contains e.tag = true
        · simp only [htag, if_true, List.mem_append, List.mem_singleton] at hmem
          rcases hmem with hmem | rfl
          · exact Or.inl hmem
          · exact Or.inr ⟨e, List.mem_cons_self e tl, rfl, rfl, hlen, rfl, rfl, rfl, rfl, rfl⟩
        · simp only [htag, if_false, Bool.false_eq_true,
            List.mem_append, List.mem_singleton] at hmem
          rcases hmem with hmem | rfl
          · exact Or.inl hmem
          · exact Or.inr ⟨e, List.mem_cons_self e tl, rfl, rfl, hlen, rfl, rfl, rfl, rfl, rfl⟩
    · exact Or.inr ⟨e', List.mem_cons_of_mem e he', hrest⟩

/-- The facts true of every chunk `main.py`'s `extract_page_content` emits. -/
theorem extract_chunk_facts (page : Page) (url ts : String) (c : Chunk)
    (hc : c ∈ extract_page_content page url ts) :
    c.char_count = c.text.length ∧
    c.chunk_id = generate_chunk_id c.text ∧
    c.document_title = titleOr page ∧
    c.source_url = url ∧ c.extracted_at = ts ∧
    ((c.content_type ∈ allowed_tags ∧ 20 ≤ c.text.length) ∨
     (c.content_type = "table" ∧ c.text ≠ "")) := by
  unfold extract_page_content at hc
  rw [List.mem_append] at hc
  rcases hc with hc | hc
  · rcases mem_foldl_segStep url (titleOr page) ts _ _ c (by
        simpa [titleOr] using hc) with h | ⟨e, he, ht, hct, hlen, hcc, hid, hdt, hsu, hts⟩
    · simp at h
    · refine ⟨hcc, hid, hdt, hsu, hts, Or.inl ⟨?_, hlen⟩⟩
      rw [hct]
      have := (List.mem_filter.1 he).2
      simpa using this
  · rw [List.mem_map] at hc
    obtain ⟨ttext, hin, rfl⟩ := hc
    have hne : ttext ≠ "" := by
      have := (List.mem_filter.1 hin).2
      simp only [Bool.not_eq_true'] at this
      intro h
      rw [h] at this
      simp at this
    exact ⟨rfl, rfl, by simp [tableChunk, titleOr], rfl, rfl, Or.inr ⟨rfl, hne⟩⟩

theorem app_guard_false {t : String} (h : 30 ≤ t.length) :
    ¬(t = "" ∨ t.length < 30) := by
  rintro (rfl | hlt)
  · simp [String.length] at h
  · omega

/-- Every chunk produced by the element loop of `app.py` stems from a
non-heading element above the 30-character threshold. -/
theorem mem_foldl_appSegStep (meta : AppMeta) (l : List Element)
    (st : Option String × List AppChunk) (c : AppChunk)
    (hc : c ∈ (l.foldl (appSegStep meta) st).2) :
    c ∈ st.2 ∨ ∃ e ∈ l, c.text = e.text ∧ c.content_type = e.tag ∧
      e.tag ∉ (["h1", "h2", "h3"] : List String) ∧ 30 ≤ c.text.length ∧
      c.char_count = c.text.length ∧ c.chunk_id = chunk_id c.text ∧
      c.document_title = meta.document_title ∧ c.organization = meta.organization ∧
      c.source_url = meta.source_url := by
  induction l generalizing st with
  | nil => exact Or.inl hc
  | cons e tl ih =>
    rw [List.foldl_cons] at hc
    rcases ih (appSegStep meta st e) hc with hmem | ⟨e', he', hrest⟩
    · unfold appSegStep at hmem
      by_cases hguard : e.text = "" ∨ e.text.length < 30
      · rw [if_pos hguard] at hmem
        exact Or.inl hmem
      · rw [if_neg hguard] at hmem
        have hlen : 30 ≤ e.text.length := by
          rcases Nat.lt_or_ge e.text.length 30 with h | h
          · exact absurd (Or.inr h) hguard
          · exact h
        by_cases htag : (["h1", "h2", "h3"].contains e.tag) = true
        · simp only [htag, if_true] at hmem
          exact Or.inl hmem
        · simp only [htag, if_false, Bool.false_eq_true,
            List.mem_append, List.mem_singleton] at hmem
          rcases hmem with hmem | rfl
          · exact Or.inl hmem
          · exact Or.inr ⟨e, List.mem_cons_self e tl, rfl, rfl,
              fun hmem => htag (List.elem_eq_true_of_mem hmem), hlen, rfl, rfl, rfl, rfl, rfl⟩
    · exact Or.inr ⟨e', List.mem_cons_of_mem e he', hrest⟩

/-- The facts true of every chunk `app.py`'s `extract_page` emits for a page. -/
theorem app_chunk_facts (page : AppPage) (url ts : String) (c : AppChunk)
    (hc : c ∈ appSegment page url ts) :
    c.char_count = c.text.length ∧
    c.chunk_id = chunk_id c.text ∧
    c.document_title = page.title ∧
    c.source_url = url ∧
    30 ≤ c.text.length ∧
    (c.content_type = "p" ∨ c.content_type = "li") := by
  unfold appSegment at hc
  rcases mem_foldl_appSegStep _ _ _ c hc with h | ⟨e, he, ht, hct, hnh, hlen, hcc, hid, hdt, horg, hsu⟩
  · simp at h
  · refine ⟨hcc, hid, by simpa [extract_metadata] using hdt,
      by simpa [extract_metadata] using hsu, hlen, ?_⟩
    have htags : e.tag ∈ (["h1", "h2", "h3", "p", "li"] : List String) :=
      List.mem_of_elem_eq_true (List.mem_filter.1 he).2
    rw [hct]
    simp only [List.mem_cons, List.mem_singleton, List.not_mem_nil, or_false] at htags
    rcases htags with h | h | h | h | h
    all_goals first
      | (exact Or.inl h)
      | (exact Or.inr h)
      | (exact absurd (by simp [h]) hnh)

/-! ## Facts about the hex digest format -/

theorem sha256Words_length (msg : List Nat) : (sha256Words msg).length = 8 := rfl

theorem toHexChars8_length (n : Nat) : (toHexChars8 n).length = 8 := rfl

theorem hexChar_mem (n : Nat) : hexChar n ∈ hexDigits := by
  unfold hexChar
  have h : n % 16 < hexDigits.length := Nat.mod_lt _ (by norm_num)
  rw [List.getD_eq_getElem _ _ h]
  exact List.getElem_mem h

theorem mem_toHexChars8 (n : Nat) (c : Char) (hc : c ∈ toHexChars8 n) : c ∈ hexDigits := by
  unfold toHexChars8 at hc
  simp only [List.mem_cons, List.not_mem_nil, or_false] at hc
  rcases hc with rfl | rfl | rfl | rfl | rfl | rfl | rfl | rfl
  all_goals exact hexChar_mem _

theorem flatten_map_toHexChars8_length (l : List Nat) :
    ((l.map toHexChars8).flatten).length = 8 * l.length := by
  induction l with
  | nil => rfl
  | cons a t ih =>
    simp only [List.map_cons, List.flatten_cons, List.length_append, ih,
      toHexChars8_length, List.length_cons]
    ring

theorem sha256HexChars_length (msg : List Nat) : (sha256HexChars msg).length = 64 := by
  unfold sha256HexChars
  rw [flatten_map_toHexChars8_length, sha256Words_length]

theorem generate_chunk_id_length (t : String) : (generate_chunk_id t).length = 16 := by
  show ((sha256Hex t).take 16).length = 16
  rw [List.length_take, sha256Hex, sha256HexChars_length]
  decide

theorem generate_chunk_id_hex (t : String) (c : Char)
    (hc : c ∈ (generate_chunk_id t).toList) : c ∈ hexDigits := by
  have hc' : c ∈ (sha256Hex t).take 16 := hc
  have hmem := List.take_subset 16 (sha256Hex t) hc'
  unfold sha256Hex sha256HexChars at hmem
  rcases List.mem_flatten.1 hmem with ⟨l', hl', hcl⟩
  rcases List.mem_map.1 hl' with ⟨w, _, rfl⟩
  exact mem_toHexChars8 w c hcl

/-! ## Concrete pages used by counterexamples and witnesses -/

/-- A page whose only element is a long `h1`. -/
def pgHeading : Page :=
  { title := some "Corporate Governance"
    elements := [⟨"h1", "Governance Policy Overview Statement"⟩]
    tables := []
    links := [] }

/-- A page whose only content is a one-row table flattening to 12 characters. -/
def pgTableSmall : Page :=
  { title := some "Tables", elements := [], tables := [[["Alpha", "Beta"]]], links := [] }

/-- A title-less `app.py` page with one long paragraph. -/
def pgNoTitleApp : AppPage :=
  { title := none
    orgTags := []
    elements := [⟨"p", "A governance paragraph that is definitely longer than thirty characters."⟩]
    links := [] }

/-- First page carrying a repeated sentence. -/
def pgRepeatA : Page :=
  { title := some "One"
    elements := [⟨"p", "This exact sentence appears on two separate pages."⟩]
    tables := []
    links := [] }

/-- Second, title-less page carrying the same sentence in a different tag. -/
def pgRepeatB : Page :=
  { title := none
    elements := [⟨"td", "This exact sentence appears on two separate pages."⟩]
    tables := []
    links := [] }

/-- Placeholder chunk for `getD`. -/
def dChunk : Chunk :=
  { source_url := "", document_title := "", organization := "", document_type := ""
    section_title := none, section_level := none, chapter := none, article := none
    content_type := "", text := "", char_count := 0, chunk_id := "", extracted_at := "" }

/-- Placeholder `app.py` chunk for `getD`. -/
def dAppChunk : AppChunk :=
  { source_url := "", document_title := none, organization := none, document_type := ""
    extracted_at := "", section_title := none, content_type := "", text := ""
    char_count := 0, chunk_id := "" }

/-! ## Claim C10 -/

/-- C10: every chunk emitted by the segmenter or the table flattener (in both
variants) has `char_count` equal to the exact length of its `text` field. -/
theorem claimC10_char_count_exact (page : Page) (apage : AppPage) (url ts : String) :
    (∀ c ∈ extract_page_content page url ts, c.char_count = c.text.length) ∧
    (∀ c ∈ appSegment apage url ts, c.char_count = c.text.length) :=
  ⟨fun c hc => (extract_chunk_facts page url ts c hc).1,
   fun c hc => (app_chunk_facts apage url ts c hc).1⟩

theorem claimC10_witness :
    ((extract_page_content pgTableSmall "http://ex.com/t" "ts").getD 0 dChunk).char_count =
      ((extract_page_content pgTableSmall "http://ex.com/t" "ts").getD 0 dChunk).text.length ∧
    ((appSegment pgNoTitleApp "http://ex.com/p" "ts").getD 0 dAppChunk).char_count =
      ((appSegment pgNoTitleApp "http://ex.com/p" "ts").getD 0 dAppChunk).text.length :=
  ⟨(claimC10_char_count_exact pgTableSmall pgNoTitleApp "http://ex.com/t" "ts").1 _
      (getD_mem _ 0 dChunk (by decide)),
   (claimC10_char_count_exact pgTableSmall pgNoTitleApp "http://ex.com/p" "ts").2 _
      (getD_mem _ 0 dAppChunk (by decide))⟩

/-! ## Claim C2 -/

/-- C2 counterexample: in `main.py` a heading-kind element (here an `h1` of 36
characters) does produce a chunk, whose content type is the heading tag, so
not every emitted chunk has a non-heading content type. -/
theorem claimC2_counterexample :
    "h1" ∈ headingTags ∧
    ((extract_page_content pgHeading "http://ex.com/a" "ts").map fun c => c.content_type) =
      ["h1"] := by
  decide

/-- C2 amended: in the `app.py` segmenter no heading-kind element ever
produces a chunk (every emitted content type is a non-heading tag kind); in
`main.py` a heading whose text passes the 20-character threshold updates the
hierarchy context but also emits a chunk whose content type is its heading
tag. -/
theorem claimC2_amended (apage : AppPage) (url ts : String) :
    (∀ c ∈ appSegment apage url ts, c.content_type ∉ headingTags) ∧
    (∀ (st : SegState) (e : Element) (dt : String), e.tag ∈ headingTags →
      20 ≤ e.text.length → ∃ c, (segStep url dt ts st e).chunks = st.chunks ++ [c] ∧
        c.content_type = e.tag ∧ c.text = e.text) := by
  constructor
  · intro c hc hmem
    rcases (app_chunk_facts apage url ts c hc).2.2.2.2.2 with h | h
    · rw [h] at hmem
      simp [headingTags] at hmem
    · rw [h] at hmem
      simp [headingTags] at hmem
  · intro st e dt htag hlen
    unfold segStep
    rw [if_neg (seg_guard_false hlen), if_pos (List.elem_eq_true_of_mem htag)]
    exact ⟨_, rfl, rfl, rfl⟩

theorem claimC2_witness :
    ((appSegment pgNoTitleApp "http://ex.com/p" "ts").getD 0 dAppChunk).content_type ∉
      headingTags ∧
    ∃ c, (segStep "http://ex.com/a" "dt" "ts" ⟨none, none, none, none, []⟩
        ⟨"h1", "Governance Policy Overview Statement"⟩).chunks = [] ++ [c] ∧
      c.content_type = "h1" ∧ c.text = "Governance Policy Overview Statement" :=
  ⟨(claimC2_amended pgNoTitleApp "http://ex.com/p" "ts").1 _
      (getD_mem _ 0 dAppChunk (by decide)),
   (claimC2_amended pgNoTitleApp "http://ex.com/a" "ts").2 ⟨none, none, none, none, []⟩
      ⟨"h1", "Governance Policy Overview Statement"⟩ "dt" (by decide) (by decide)⟩

/-! ## Claim C3 -/

/-- C3 counterexample: a table whose flattened text has 12 characters (below
the 20-character minimum) still produces a chunk in `main.py` — the threshold
is not applied to table chunks. -/
theorem claimC3_counterexample :
    ((extract_page_content pgTableSmall "http://ex.com/t" "ts").map fun c =>
      (c.content_type, c.char_count)) = [("table", 12)] ∧ 12 < 20 := by
  decide

/-- C3 amended: every non-table chunk of `main.py` meets the 20-character
minimum and every `app.py` chunk meets the 30-character minimum; table chunks
are only guaranteed nonempty (shorter elements and empty tables are discarded
silently — the segmenters are total and never raise). -/
theorem claimC3_amended (page : Page) (apage : AppPage) (url ts : String) :
    (∀ c ∈ extract_page_content page url ts,
        c.text ≠ "" ∧ (c.content_type ≠ "table" → 20 ≤ c.text.length)) ∧
    (∀ c ∈ appSegment apage url ts, 30 ≤ c.text.length) := by
  constructor
  · intro c hc
    obtain ⟨_, _, _, _, _, hdis⟩ := extract_chunk_facts page url ts c hc
    rcases hdis with ⟨_, hlen⟩ | ⟨htab, hne⟩
    · exact ⟨ne_empty_of_length _ (by omega), fun _ => hlen⟩
    · exact ⟨hne, fun hne2 => absurd htab hne2⟩
  · intro c hc
    exact (app_chunk_facts apage url ts c hc).2.2.2.2.1

theorem claimC3_witness :
    (((extract_page_content pgHeading "http://ex.com/a" "ts").getD 0 dChunk).text ≠ "" ∧
      (((extract_page_content pgHeading "http://ex.com/a" "ts").getD 0 dChunk).content_type ≠
          "table" →
        20 ≤ ((extract_page_content pgHeading "http://ex.com/a" "ts").getD 0 dChunk).text.length)) ∧
    30 ≤ ((appSegment pgNoTitleApp "http://ex.com/p" "ts").getD 0 dAppChunk).text.length :=
  ⟨(claimC3_amended pgHeading pgNoTitleApp "http://ex.com/a" "ts").1 _
      (getD_mem _ 0 dChunk (by decide)),
   (claimC3_amended pgHeading pgNoTitleApp "http://ex.com/p" "ts").2 _
      (getD_mem _ 0 dAppChunk (by decide))⟩

/-! ## Claim C9 -/

/-- C9 counterexample: in `app.py` a fetched page with no title element emits
chunks whose document title is `None`, not the fixed `"Unknown"`. -/
theorem claimC9_counterexample :
    pgNoTitleApp.title = none ∧
    ((appSegment pgNoTitleApp "http://ex.com/p" "ts").map fun c => c.document_title) =
      [none] := by
  decide

/-- C9 amended: for a page without a title element, `main.py` stamps the fixed
document title `"Unknown"` on every emitted chunk while `app.py` stamps the
null title `None`; in both variants the missing title is a defined fallback,
never an error. -/
theorem claimC9_amended (page : Page) (apage : AppPage) (url ts : String)
    (hp : page.title = none) (ha : apage.title = none) :
    (∀ c ∈ extract_page_content page url ts, c.document_title = "Unknown") ∧
    (∀ c ∈ appSegment apage url ts, c.document_title = none) := by
  constructor
  · intro c hc
    rw [(extract_chunk_facts page url ts c hc).2.2.1]
    simp [titleOr, hp]
  · intro c hc
    rw [(app_chunk_facts apage url ts c hc).2.2.1, ha]

theorem claimC9_witness :
    ((extract_page_content pgRepeatB "http://ex.com/b" "ts").getD 0 dChunk).document_title =
      "Unknown" ∧
    ((appSegment pgNoTitleApp "http://ex.com/p" "ts").getD 0 dAppChunk).document_title =
      none :=
  ⟨(claimC9_amended pgRepeatB pgNoTitleApp "http://ex.com/b" "ts" rfl rfl).1 _
      (getD_mem _ 0 dChunk (by decide)),
   (claimC9_amended pgRepeatB pgNoTitleApp "http://ex.com/p" "ts" rfl rfl).2 _
      (getD_mem _ 0 dAppChunk (by decide))⟩

/-! ## Claim C4 -/

/-- C4: the chunk identifier is a pure function of the text alone (in both
variants the same function of the UTF-8 bytes of the text — no URL, timestamp
or other metadata enters), equal to the SHA-256 hex digest truncated to a
fixed length of 16 hex characters; consequently any two chunks with identical
text, from any two pages of either variant, receive identical identifiers. -/
theorem claimC4_identifier (t : String) :
    (generate_chunk_id t).length = 16 ∧
    (∀ c ∈ (generate_chunk_id t).toList, c ∈ hexDigits) ∧
    generate_chunk_id t = String.mk ((sha256HexChars (encodeUTF8 t)).take 16) ∧
    chunk_id t = generate_chunk_id t ∧
    (∀ p1 u1 s1 p2 u2 s2 c1 c2, c1 ∈ extract_page_content p1 u1 s1 →
      c2 ∈ extract_page_content p2 u2 s2 → c1.text = c2.text →
      c1.chunk_id = c2.chunk_id) ∧
    (∀ p1 u1 s1 p2 u2 s2 c1 c2, c1 ∈ appSegment p1 u1 s1 →
      c2 ∈ appSegment p2 u2 s2 → c1.text = c2.text → c1.chunk_id = c2.chunk_id) := by
  refine ⟨generate_chunk_id_length t, generate_chunk_id_hex t, rfl, rfl, ?_, ?_⟩
  · intro p1 u1 s1 p2 u2 s2 c1 c2 h1 h2 htext
    rw [(extract_chunk_facts p1 u1 s1 c1 h1).2.1, (extract_chunk_facts p2 u2 s2 c2 h2).2.1,
      htext]
  · intro p1 u1 s1 p2 u2 s2 c1 c2 h1 h2 htext
    rw [(app_chunk_facts p1 u1 s1 c1 h1).2.1, (app_chunk_facts p2 u2 s2 c2 h2).2.1, htext]

/-! ## Crawl loop machinery (`main.py`) -/

/-- Exhaustive description of one successful crawl step. -/
theorem crawlStep_cases (env : String → Option Page) (tsOf : String → String)
    (base : String) (maxd : Nat) (s s' : CrawlState)
    (h : crawlStep env tsOf base maxd s = some s') :
    ∃ url depth rest, s.queue = (url, depth) :: rest ∧
      (((url ∈ s.visited ∨ maxd < depth) ∧
        s' = ⟨rest, s.visited, s.chunks, s.fetched⟩) ∨
       (url ∉ s.visited ∧ depth ≤ maxd ∧
        ((env url = none ∧
          s' = ⟨rest, url :: s.visited, s.chunks, s.fetched ++ [url]⟩) ∨
         (∃ page, env url = some page ∧
          s' = ⟨rest ++ ((page.links.filter fun u =>
                  mainLinkOk base u && !(url :: s.visited).contains u).map
                  fun u => (u, depth + 1)),
                url :: s.visited,
                s.chunks ++ extract_page_content page url (tsOf url),
                s.fetched ++ [url]⟩)))) := by
  rcases s with ⟨q, vis, ch, fe⟩
  cases q with
  | nil => simp [crawlStep] at h
  | cons p rest =>
    obtain ⟨url, depth⟩ := p
    refine ⟨url, depth, rest, rfl, ?_⟩
    simp only [crawlStep] at h
    by_cases hv : url ∈ vis ∨ maxd < depth
    · rw [if_pos hv] at h
      exact Or.inl ⟨hv, (Option.some_inj.1 h).symm⟩
    · rw [if_neg hv] at h
      push_neg at hv
      refine Or.inr ⟨hv.1, hv.2, ?_⟩
      cases he : env url with
      | none =>
        rw [he] at h
        exact Or.inl ⟨rfl, (Option.some_inj.1 h).symm⟩
      | some page =>
        rw [he] at h
        exact Or.inr ⟨page, rfl, (Option.some_inj.1 h).symm⟩

/-- A failing step means the frontier was empty. -/
theorem crawlStep_none (env : String → Option Page) (tsOf : String → String)
    (base : String) (maxd : Nat) (s : CrawlState)
    (h : crawlStep env tsOf base maxd s = none) : s.queue = [] := by
  rcases s with ⟨q, vis, ch, fe⟩
  cases q with
  | nil => rfl
  | cons p rest =>
    obtain ⟨url, depth⟩ := p
    simp only [crawlStep] at h
    by_cases hv : url ∈ vis ∨ maxd < depth
    · rw [if_pos hv] at h
      exact absurd h (by simp)
    · rw [if_neg hv] at h
      cases he : env url with
      | none => rw [he] at h; exact absurd h (by simp)
      | some page => rw [he] at h; exact absurd h (by simp)

/-- An empty frontier means the step fails. -/
theorem crawlStep_of_empty (env : String → Option Page) (tsOf : String → String)
    (base : String) (maxd : Nat) (s : CrawlState) (h : s.queue = []) :
    crawlStep env tsOf base maxd s = none := by
  rcases s with ⟨q, vis, ch, fe⟩
  cases h
  rfl

/-- Once the loop has exited, running longer changes nothing. -/
theorem crawlRun_none (env : String → Option Page) (tsOf : String → String)
    (base : String) (maxd : Nat) (s : CrawlState)
    (h : crawlStep env tsOf base maxd s = none) :
    ∀ fuel, crawlRun env tsOf base maxd fuel s = s := by
  intro fuel
  cases fuel with
  | zero => rfl
  | succ n =>
    unfold crawlRun
    rw [h]

/-- Unfolding equation of `crawlRun` at a successor amount of fuel. -/
theorem crawlRun_succ (env : String → Option Page) (tsOf : String → String)
    (base : String) (maxd n : Nat) (s : CrawlState) :
    crawlRun env tsOf base maxd (n + 1) s =
      match crawlStep env tsOf base maxd s with
      | none => s
      | some s' => crawlRun env tsOf base maxd n s' := rfl

/-- Splitting a run into two runs. -/
theorem crawlRun_add (env : String → Option Page) (tsOf : String → String)
    (base : String) (maxd : Nat) :
    ∀ a b s, crawlRun env tsOf base maxd (a + b) s =
      crawlRun env tsOf base maxd b (crawlRun env tsOf base maxd a s) := by
  intro a
  induction a with
  | zero =>
    intro b s
    rw [Nat.zero_add]
    rfl
  | succ n ih =>
    intro b s
    rw [Nat.succ_add, crawlRun_succ, crawlRun_succ]
    cases hs : crawlStep env tsOf base maxd s with
    | none => exact (crawlRun_none env tsOf base maxd s hs b).symm
    | some s' => exact ih b s'

/-- Any predicate preserved by single steps is preserved by the whole run. -/
theorem crawlRun_inv (env : String → Option Page) (tsOf : String → String)
    (base : String) (maxd : Nat) (P : CrawlState → Prop)
    (hstep : ∀ s s', crawlStep env tsOf base maxd s = some s' → P s → P s') :
    ∀ fuel s, P s → P (crawlRun env tsOf base maxd fuel s) := by
  intro fuel
  induction fuel with
  | zero => intro s h; exact h
  | succ n ih =>
    intro s h
    unfold crawlRun
    cases hs : crawlStep env tsOf base maxd s with
    | none => exact h
    | some s' => exact ih s' (hstep s s' hs h)

/-- The visited set only ever grows along the run. -/
theorem crawlRun_visited_subset (env : String → Option Page) (tsOf : String → String)
    (base : String) (maxd : Nat) :
    ∀ fuel s, s.visited ⊆ (crawlRun env tsOf base maxd fuel s).visited := by
  intro fuel
  induction fuel with
  | zero => intro s; exact fun a ha => ha
  | succ n ih =>
    intro s
    unfold crawlRun
    cases hs : crawlStep env tsOf base maxd s with
    | none => exact fun a ha => ha
    | some s' =>
      refine List.Subset.trans ?_ (ih s')
      obtain ⟨url, depth, rest, hq, hc⟩ := crawlStep_cases env tsOf base maxd s s' hs
      rcases hc with ⟨_, rfl⟩ | ⟨_, _, hrest⟩
      · exact fun a ha => ha
      · rcases hrest with ⟨_, rfl⟩ | ⟨page, _, rfl⟩
        · exact List.subset_cons_of_subset _ fun a ha => ha
        · exact List.subset_cons_of_subset _ fun a ha => ha

/-- Invariant of the `main.py` crawl: every frontier entry and every URL ever
passed to `fetch_page` is the seed or passed the link admission test. -/
def admissibleState (base seed : String) (s : CrawlState) : Prop :=
  (∀ p ∈ s.queue, p.1 = seed ∨ mainLinkOk base p.1 = true) ∧
  (∀ v ∈ s.fetched, v = seed ∨ mainLinkOk base v = true)

theorem crawl_admissible (env : String → Option Page) (tsOf : String → String)
    (seed : String) (maxd fuel : Nat) :
    admissibleState (netlocOf seed) seed (crawl env tsOf seed maxd fuel) := by
  refine crawlRun_inv env tsOf (netlocOf seed) maxd _ ?_ fuel (crawlInit seed) ?_
  · intro s s' hs hP
    obtain ⟨url, depth, rest, hq, hc⟩ := crawlStep_cases _ _ _ _ _ _ hs
    obtain ⟨hQ, hF⟩ := hP
    have hurl : url = seed ∨ mainLinkOk (netlocOf seed) url = true :=
      hQ (url, depth) (hq ▸ List.mem_cons_self _ _)
    have hrest' : ∀ p ∈ rest, p.1 = seed ∨ mainLinkOk (netlocOf seed) p.1 = true :=
      fun p hp => hQ p (hq ▸ List.mem_cons_of_mem _ hp)
    rcases hc with ⟨_, rfl⟩ | ⟨_, _, hr⟩
    · exact ⟨hrest', hF⟩
    · rcases hr with ⟨_, rfl⟩ | ⟨page, henv, rfl⟩
      · refine ⟨hrest', fun v hv => ?_⟩
        rcases List.mem_append.1 hv with h | h
        · exact hF v h
        · rw [List.mem_singleton.1 h]
          exact hurl
      · refine ⟨fun p hp => ?_, fun v hv => ?_⟩
        · rcases List.mem_append.1 hp with h | h
          · exact hrest' p h
          · rcases List.mem_map.1 h with ⟨u, hu, rfl⟩
            have hu2 := (List.mem_filter.1 hu).2
            rw [Bool.and_eq_true] at hu2
            exact Or.inr hu2.1
        · rcases List.mem_append.1 hv with h | h
          · exact hF v h
          · rw [List.mem_singleton.1 h]
            exact hurl
  · constructor
    · intro p hp
      rw [List.mem_singleton.1 hp]
      exact Or.inl rfl
    · intro v hv
      exact absurd hv (List.not_mem_nil v)

/-! ## Claim C7 -/

/-- C7: every entry ever present on the frontier other than the seed has host
exactly equal to the base domain (the seed URL's netloc); candidate links on a
different host — subdomains included — are never enqueued. -/
theorem claimC7_frontier_same_host (env : String → Option Page) (tsOf : String → String)
    (seed : String) (maxd fuel : Nat) :
    ∀ p ∈ (crawl env tsOf seed maxd fuel).queue,
      p.1 = seed ∨ netlocOf p.1 = netlocOf seed := by
  intro p hp
  rcases (crawl_admissible env tsOf seed maxd fuel).1 p hp with h | h
  · exact Or.inl h
  · unfold mainLinkOk at h
    rw [Bool.and_eq_true] at h
    exact Or.inr (eq_of_beq h.1)

/-- Seed page linking to one same-host page. -/
def pgSeedLink : Page :=
  { title := some "Seed", elements := [], tables := []
    links := ["http://ex.com/governance/b"] }

/-- Environment for the C7 witness. -/
def envC7 : String → Option Page := fun u =>
  if u == "http://ex.com/governance/a" then some pgSeedLink else none

theorem claimC7_witness :
    ("http://ex.com/governance/b" : String) = "http://ex.com/governance/a" ∨
      netlocOf "http://ex.com/governance/b" = netlocOf "http://ex.com/governance/a" :=
  claimC7_frontier_same_host envC7 (fun _ => "ts") "http://ex.com/governance/a" 2 1
    ("http://ex.com/governance/b", 1) (by decide)

/-! ## Claim C8 -/

/-- The chunks a URL contributes in `main.py` (none on fetch failure). -/
def chunksOfUrl (env : String → Option Page) (tsOf : String → String)
    (u : String) : List Chunk :=
  match env u with
  | some p => extract_page_content p u (tsOf u)
  | none => []

/-- Invariant of the `main.py` crawl: the fetch trace has no duplicates, each
fetched URL is visited, and the result is exactly one chunk list per fetch. -/
def fetchInv (env : String → Option Page) (tsOf : String → String)
    (s : CrawlState) : Prop :=
  s.fetched.Nodup ∧ (∀ u ∈ s.fetched, u ∈ s.visited) ∧
  s.chunks = s.fetched.flatMap (chunksOfUrl env tsOf)

theorem crawl_fetchInv (env : String → Option Page) (tsOf : String → String)
    (seed : String) (maxd fuel : Nat) :
    fetchInv env tsOf (crawl env tsOf seed maxd fuel) := by
  refine crawlRun_inv env tsOf (netlocOf seed) maxd _ ?_ fuel (crawlInit seed) ?_
  · intro s s' hs hP
    obtain ⟨url, depth, rest, hq, hc⟩ := crawlStep_cases _ _ _ _ _ _ hs
    obtain ⟨hnd, hfv, hch⟩ := hP
    rcases hc with ⟨_, rfl⟩ | ⟨hnv, _, hr⟩
    · exact ⟨hnd, hfv, hch⟩
    · have hnotf : url ∉ s.fetched := fun hmem => hnv (hfv url hmem)
      have hnd' : (s.fetched ++ [url]).Nodup := by
        rw [List.nodup_append]
        exact ⟨hnd, List.nodup_singleton url,
          fun a ha hb => hnotf (by rwa [List.mem_singleton.1 hb] at ha)⟩
      have hfv' : ∀ u ∈ s.fetched ++ [url], u ∈ url :: s.visited := by
        intro u hu
        rcases List.mem_append.1 hu with h | h
        · exact List.mem_cons_of_mem _ (hfv u h)
        · rw [List.mem_singleton.1 h]
          exact List.mem_cons_self _ _
      rcases hr with ⟨henv, rfl⟩ | ⟨page, henv, rfl⟩
      · refine ⟨hnd', hfv', ?_⟩
        dsimp only
        rw [List.flatMap_append, ← hch]
        simp [chunksOfUrl, henv]
      · refine ⟨hnd', hfv', ?_⟩
        dsimp only
        rw [List.flatMap_append, ← hch]
        simp [chunksOfUrl, henv]
  · exact ⟨List.nodup_nil, fun u hu => absurd hu (List.not_mem_nil u), rfl⟩

/-- The chunks a URL contributes in `app.py` (none on fetch failure). -/
def appChunksOfUrl (env : String → Option AppPage) (tsOf : String → String)
    (u : String) : List AppChunk :=
  match env u with
  | some p => appSegment p u (tsOf u)
  | none => []

/-- Invariant of the `app.py` recursion, mirroring `fetchInv`. -/
def appInv (env : String → Option AppPage) (tsOf : String → String)
    (st : AppState) : Prop :=
  st.fetched.Nodup ∧ (∀ u ∈ st.fetched, u ∈ st.visited) ∧
  st.chunks = st.fetched.flatMap (appChunksOfUrl env tsOf)

theorem extract_page_appInv (env : String → Option AppPage) (tsOf : String → String)
    (base : String) :
    ∀ fuel url st, appInv env tsOf st →
      appInv env tsOf (extract_page env tsOf base fuel url st) := by
  intro fuel
  induction fuel with
  | zero => intro url st h; exact h
  | succ n ih =>
    intro url st h
    obtain ⟨hnd, hfv, hch⟩ := h
    unfold extract_page
    by_cases hg : url ∈ st.visited ∨ MAX_PAGES ≤ st.visited.length
    · rw [if_pos hg]
      exact ⟨hnd, hfv, hch⟩
    · rw [if_neg hg]
      push_neg at hg
      have hnotf : url ∉ st.fetched := fun hmem => hg.1 (hfv url hmem)
      have hnd' : (st.fetched ++ [url]).Nodup := by
        rw [List.nodup_append]
        exact ⟨hnd, List.nodup_singleton url,
          fun a ha hb => hnotf (by rwa [List.mem_singleton.1 hb] at ha)⟩
      have hfv' : ∀ u ∈ st.fetched ++ [url], u ∈ url :: st.visited := by
        intro u hu
        rcases List.mem_append.1 hu with hm | hm
        · exact List.mem_cons_of_mem _ (hfv u hm)
        · rw [List.mem_singleton.1 hm]
          exact List.mem_cons_self _ _
      cases he : env url with
      | none =>
        refine ⟨hnd', hfv', ?_⟩
        dsimp only
        rw [List.flatMap_append, ← hch]
        simp [appChunksOfUrl, he]
      | some page =>
        have h2 : appInv env tsOf
            ⟨url :: st.visited, st.chunks ++ appSegment page url (tsOf url),
              st.fetched ++ [url]⟩ := by
          refine ⟨hnd', hfv', ?_⟩
          dsimp only
          rw [List.flatMap_append, ← hch]
          simp [appChunksOfUrl, he]
        have haux : ∀ (l : List String) (st' : AppState), appInv env tsOf st' →
            appInv env tsOf (l.foldl (fun acc v =>
              if is_allowed_url v base then extract_page env tsOf base n v acc else acc)
              st') := by
          intro l
          induction l with
          | nil => intro st' h'; exact h'
          | cons x tl ihl =>
            intro st' h'
            rw [List.foldl_cons]
            cases hx : is_allowed_url x base with
            | false =>
              simp only [hx, Bool.false_eq_true, if_false]
              exact ihl _ h'
            | true =>
              simp only [hx, if_true]
              exact ihl _ (ih x st' h')
        exact haux _ _ h2

/-- C8: in both variants every URL is fetched at most once — the trace of
`requests.get` calls has no duplicate — and the accumulated result is exactly
the concatenation of one chunk list per fetched URL, so a URL discovered
through many inbound links contributes at most one set of chunks. -/
theorem claimC8_fetch_once (env : String → Option Page) (tsOf : String → String)
    (seed : String) (maxd fuel : Nat)
    (aenv : String → Option AppPage) (atsOf : String → String)
    (aseed : String) (afuel : Nat) :
    ((crawl env tsOf seed maxd fuel).fetched.Nodup ∧
     (crawl env tsOf seed maxd fuel).chunks =
       (crawl env tsOf seed maxd fuel).fetched.flatMap (chunksOfUrl env tsOf)) ∧
    ((appCrawl aenv atsOf aseed afuel).fetched.Nodup ∧
     (appCrawl aenv atsOf aseed afuel).chunks =
       (appCrawl aenv atsOf aseed afuel).fetched.flatMap (appChunksOfUrl aenv atsOf)) := by
  have h1 := crawl_fetchInv env tsOf seed maxd fuel
  have h2 := extract_page_appInv aenv atsOf (netlocOf aseed) afuel aseed ⟨[], [], []⟩
    ⟨List.nodup_nil, fun u hu => absurd hu (List.not_mem_nil u), rfl⟩
  exact ⟨⟨h1.1, h1.2.2⟩, ⟨h2.1, h2.2.2⟩⟩

theorem claimC8_witness :
    (crawl envC7 (fun _ => "ts") "http://ex.com/governance/a" 2 3).fetched.Nodup :=
  (claimC8_fetch_once envC7 (fun _ => "ts") "http://ex.com/governance/a" 2 3
    (fun _ => none) (fun _ => "ts") "http://ex.com/governance/" 3).1.1

/-! ## Claim C6 -/

/-- Seed page of the C6 counterexample, linking to a `.docx` document and to
a `.pdf` whose URL carries a query string. -/
def pgC6 : Page :=
  { title := some "Seed", elements := [], tables := []
    links := ["http://ex.com/report.docx", "http://ex.com/file.pdf?download=1"] }

/-- Environment for the C6 counterexample. -/
def envC6 : String → Option Page := fun u =>
  if u == "http://ex.com/a" then some pgC6 else none

/-- C6 counterexample: `main.py` only blocks `.pdf`/`.jpg`/`.png` as suffixes
of the whole URL string, so a linked `.docx` URL (blocked extension in the
default ten-element set) is fetched, and even a URL whose path ends in `.pdf`
is fetched when a query string follows. -/
theorem claimC6_counterexample :
    "http://ex.com/report.docx" ∈
      (crawl envC6 (fun _ => "ts") "http://ex.com/a" 2 3).fetched ∧
    strEndsWith (strLower (pathOf "http://ex.com/report.docx")) ".docx" = true ∧
    ".docx" ∈ BLOCKED_EXTENSIONS ∧
    "http://ex.com/file.pdf?download=1" ∈
      (crawl envC6 (fun _ => "ts") "http://ex.com/a" 2 3).fetched ∧
    strEndsWith (strLower (pathOf "http://ex.com/file.pdf?download=1")) ".pdf" = true := by
  decide

/-- In the `app.py` recursion, every URL ever fetched is inherited from the
initial state, is the entry URL, or passed `is_allowed_url`. -/
theorem extract_page_fetched_admissible (env : String → Option AppPage)
    (tsOf : String → String) (base : String) :
    ∀ fuel url st v, v ∈ (extract_page env tsOf base fuel url st).fetched →
      v ∈ st.fetched ∨ v = url ∨ is_allowed_url v base = true := by
  intro fuel
  induction fuel with
  | zero => intro url st v hv; exact Or.inl hv
  | succ n ih =>
    intro url st v hv
    unfold extract_page at hv
    by_cases hg : url ∈ st.visited ∨ MAX_PAGES ≤ st.visited.length
    · rw [if_pos hg] at hv
      exact Or.inl hv
    · rw [if_neg hg] at hv
      cases he : env url with
      | none =>
        rw [he] at hv
        rcases List.mem_append.1 hv with h | h
        · exact Or.inl h
        · exact Or.inr (Or.inl (List.mem_singleton.1 h))
      | some page =>
        rw [he] at hv
        have haux : ∀ (l : List String) (st' : AppState),
            (∀ w ∈ st'.fetched,
              w ∈ st.fetched ∨ w = url ∨ is_allowed_url w base = true) →
            ∀ w ∈ (l.foldl (fun acc x => if is_allowed_url x base then
                extract_page env tsOf base n x acc else acc) st').fetched,
              w ∈ st.fetched ∨ w = url ∨ is_allowed_url w base = true := by
          intro l
          induction l with
          | nil => intro st' h' w hw; exact h' w hw
          | cons x tl ihl =>
            intro st' h' w hw
            rw [List.foldl_cons] at hw
            cases hx : is_allowed_url x base with
            | false =>
              simp only [hx, Bool.false_eq_true, if_false] at hw
              exact ihl st' h' w hw
            | true =>
              simp only [hx, if_true] at hw
              refine ihl _ ?_ w hw
              intro w' hw'
              rcases ih x st' w' hw' with h | h | h
              · exact h' w' h
              · exact Or.inr (Or.inr (h ▸ hx))
              · exact Or.inr (Or.inr h)
        refine haux (page.links.map stripFrag) _ ?_ v hv
        intro w hw
        rcases List.mem_append.1 hw with h | h
        · exact Or.inl h
        · exact Or.inr (Or.inl (List.mem_singleton.1 h))

/-- From `is_allowed_url` to the extension guarantee: an allowed URL's
lower-cased path ends with none of the ten blocked extensions. -/
theorem is_allowed_url_no_blocked_ext (u b : String) (h : is_allowed_url u b = true) :
    ∀ ext ∈ BLOCKED_EXTENSIONS, strEndsWith (strLower (pathOf u)) ext = false := by
  unfold is_allowed_url at h
  by_cases h1 : (netlocOf u != b) = true
  · rw [if_pos h1] at h
    exact absurd h (by simp)
  · rw [if_neg h1] at h
    by_cases h2 : (BLOCKED_EXTENSIONS.any fun ext =>
        strEndsWith (strLower (pathOf u)) ext) = true
    · rw [if_pos h2] at h
      exact absurd h (by simp)
    · rw [if_neg h2] at h
      intro ext hext
      have h2' := Bool.eq_false_iff.2 h2
      exact Bool.eq_false_iff.2 (List.any_eq_false.1 h2' ext hext)

/-- C6 amended: in the `app.py` variant every fetched URL other than the seed
passed `is_allowed_url`, so its lower-cased path ends with none of the ten
default blocked extensions; the `main.py` variant guarantees only that no
fetched URL other than the seed has its whole lower-cased URL string ending
in `.pdf`, `.jpg` or `.png`. -/
theorem claimC6_amended (aenv : String → Option AppPage) (atsOf : String → String)
    (aseed : String) (afuel : Nat)
    (env : String → Option Page) (tsOf : String → String)
    (seed : String) (maxd fuel : Nat) :
    (∀ v ∈ (appCrawl aenv atsOf aseed afuel).fetched, v = aseed ∨
      (is_allowed_url v (netlocOf aseed) = true ∧
       ∀ ext ∈ BLOCKED_EXTENSIONS, strEndsWith (strLower (pathOf v)) ext = false)) ∧
    (∀ v ∈ (crawl env tsOf seed maxd fuel).fetched, v = seed ∨
      mainBlockedUrl v = false) := by
  constructor
  · intro v hv
    rcases extract_page_fetched_admissible aenv atsOf (netlocOf aseed) afuel aseed
        ⟨[], [], []⟩ v hv with h | h | h
    · exact absurd h (List.not_mem_nil v)
    · exact Or.inl h
    · exact Or.inr ⟨h, is_allowed_url_no_blocked_ext v (netlocOf aseed) h⟩
  · intro v hv
    rcases (crawl_admissible env tsOf seed maxd fuel).2 v hv with h | h
    · exact Or.inl h
    · unfold mainLinkOk at h
      rw [Bool.and_eq_true] at h
      right
      have h2 := h.2
      rwa [Bool.not_eq_eq_eq_not, Bool.not_true] at h2

/-- `app.py` environment for the C6 witness: the seed links to an allowed
governance page. -/
def envC6App : String → Option AppPage := fun u =>
  if u == "http://ex.com/governance/" then
    some { title := some "Gov", orgTags := [], elements := []
           links := ["http://ex.com/governance/policy.html"] }
  else none

theorem claimC6_witness :
    ("http://ex.com/governance/policy.html" : String) = "http://ex.com/governance/" ∨
      (is_allowed_url "http://ex.com/governance/policy.html"
          (netlocOf "http://ex.com/governance/") = true ∧
       ∀ ext ∈ BLOCKED_EXTENSIONS,
         strEndsWith (strLower (pathOf "http://ex.com/governance/policy.html")) ext =
           false) :=
  (claimC6_amended envC6App (fun _ => "ts") "http://ex.com/governance/" 3
      envC6 (fun _ => "ts") "http://ex.com/a" 2 3).1
    "http://ex.com/governance/policy.html" (by decide)

/-! ## Claim C1: termination and boundedness of the crawl -/

/-- An upper bound on the number of links of any page discoverable within
`maxd` hops. -/
def linkBound (env : String → Option Page) (base seed : String) (maxd : Nat) : Nat :=
  (disc env base seed maxd).sup fun u => (pageLinks env u).length

/-- Crawl invariant: the visited list is duplicate-free and inside the
discoverable set, and every frontier entry processable within the depth bound
is discoverable within its depth. -/
def crawlInv (env : String → Option Page) (base seed : String) (maxd : Nat)
    (s : CrawlState) : Prop :=
  s.visited.Nodup ∧
  (∀ u ∈ s.visited, u ∈ disc env base seed maxd) ∧
  (∀ p ∈ s.queue, p.2 ≤ maxd → p.1 ∈ disc env base seed p.2)

/-- Termination measure: unvisited discoverable URLs weighted by the maximal
out-degree, plus the frontier length. -/
def crawlMeasure (env : String → Option Page) (base seed : String) (maxd : Nat)
    (s : CrawlState) : Nat :=
  ((disc env base seed maxd).card - s.visited.length) *
    (linkBound env base seed maxd + 2) + s.queue.length

theorem disc_succ_subset (env : String → Option Page) (base seed : String) (n : Nat) :
    disc env base seed n ⊆ disc env base seed (n + 1) := by
  intro x hx
  unfold disc
  exact Finset.mem_union_left _ hx

theorem disc_mono (env : String → Option Page) (base seed : String) {m n : Nat}
    (h : m ≤ n) : disc env base seed m ⊆ disc env base seed n := by
  induction h with
  | refl => exact fun x hx => hx
  | step _ ih => exact fun x hx => disc_succ_subset env base seed _ (ih hx)

theorem mem_disc_succ (env : String → Option Page) (base seed : String) (n : Nat)
    (u v : String) (hu : u ∈ disc env base seed n)
    (hv : v ∈ admissibleLinks env base u) : v ∈ disc env base seed (n + 1) := by
  unfold disc
  exact Finset.mem_union_right _ (Finset.mem_biUnion.2 ⟨u, hu, List.mem_toFinset.2 hv⟩)

theorem measure_arith (C V L q q' : Nat) (hVC : V < C) (hq : q' ≤ q + L) :
    (C - (V + 1)) * (L + 2) + q' < (C - V) * (L + 2) + (q + 1) := by
  have h1 : C - V = (C - (V + 1)) + 1 := by omega
  rw [h1, Nat.add_mul, Nat.one_mul]
  generalize (C - (V + 1)) * (L + 2) = X
  omega

/-- Each successful step preserves the invariant and strictly decreases the
measure. -/
theorem crawlStep_inv_measure (env : String → Option Page) (tsOf : String → String)
    (base seed : String) (maxd : Nat) (s s' : CrawlState)
    (h : crawlStep env tsOf base maxd s = some s')
    (hinv : crawlInv env base seed maxd s) :
    crawlInv env base seed maxd s' ∧
      crawlMeasure env base seed maxd s' < crawlMeasure env base seed maxd s := by
  obtain ⟨url, depth, rest, hq, hc⟩ := crawlStep_cases env tsOf base maxd s s' h
  obtain ⟨hnd, hvd, hqd⟩ := hinv
  have hrest : ∀ p ∈ rest, p.2 ≤ maxd → p.1 ∈ disc env base seed p.2 :=
    fun p hp => hqd p (hq ▸ List.mem_cons_of_mem _ hp)
  rcases hc with ⟨_, rfl⟩ | ⟨hnv, hdep, hr⟩
  · refine ⟨⟨hnd, hvd, hrest⟩, ?_⟩
    unfold crawlMeasure
    dsimp only
    rw [hq]
    simp only [List.length_cons]
    exact Nat.add_lt_add_left (Nat.lt_succ_self _) _
  · have hud0 : url ∈ disc env base seed depth :=
      hqd (url, depth) (hq ▸ List.mem_cons_self _ _) hdep
    have hud : url ∈ disc env base seed maxd := disc_mono env base seed hdep hud0
    have hnd' : (url :: s.visited).Nodup := List.nodup_cons.2 ⟨hnv, hnd⟩
    have hvd' : ∀ u ∈ url :: s.visited, u ∈ disc env base seed maxd := by
      intro u hu
      rcases List.mem_cons.1 hu with rfl | hu
      · exact hud
      · exact hvd u hu
    have hVC : s.visited.length < (disc env base seed maxd).card := by
      have h1 : (url :: s.visited).toFinset.card = s.visited.length + 1 := by
        rw [List.toFinset_card_of_nodup hnd']
        rfl
      have h2 : (url :: s.visited).toFinset ⊆ disc env base seed maxd :=
        fun x hx => hvd' x (List.mem_toFinset.1 hx)
      have h3 := Finset.card_le_card h2
      omega
    rcases hr with ⟨henv, rfl⟩ | ⟨page, henv, rfl⟩
    · refine ⟨⟨hnd', hvd', hrest⟩, ?_⟩
      unfold crawlMeasure
      dsimp only
      rw [hq]
      simp only [List.length_cons]
      exact measure_arith _ _ _ _ _ hVC (Nat.le_add_right _ _)
    · refine ⟨⟨hnd', hvd', ?_⟩, ?_⟩
      · intro p hp hple
        rcases List.mem_append.1 hp with hp | hp
        · exact hrest p hp hple
        · rcases List.mem_map.1 hp with ⟨v, hvmem, rfl⟩
          have hvadm : v ∈ admissibleLinks env base url := by
            unfold admissibleLinks
            rw [List.mem_filter]
            refine ⟨?_, ?_⟩
            · show v ∈ pageLinks env url
              unfold pageLinks
              rw [henv]
              exact (List.mem_filter.1 hvmem).1
            · have hv2 := (List.mem_filter.1 hvmem).2
              rw [Bool.and_eq_true] at hv2
              exact hv2.1
          exact mem_disc_succ env base seed depth url v hud0 hvadm
      · unfold crawlMeasure
        dsimp only
        rw [hq]
        simp only [List.length_cons, List.length_append, List.length_map]
        refine measure_arith _ _ _ _ _ hVC ?_
        have hfl : (page.links.filter fun u =>
            mainLinkOk base u && !(url :: s.visited).contains u).length ≤
            (pageLinks env url).length := by
          unfold pageLinks
          rw [henv]
          exact List.length_filter_le _ _
        have hL : (pageLinks env url).length ≤ linkBound env base seed maxd := by
          unfold linkBound
          exact @Finset.le_sup ℕ String _ _ (disc env base seed maxd)
            (fun u => (pageLinks env u).length) url hud
        omega

/-- With fuel at least the measure, the run drains the frontier. -/
theorem crawlRun_empties (env : String → Option Page) (tsOf : String → String)
    (base seed : String) (maxd : Nat) :
    ∀ n s, crawlInv env base seed maxd s →
      crawlMeasure env base seed maxd s ≤ n →
      (crawlRun env tsOf base maxd n s).queue = [] := by
  intro n
  induction n with
  | zero =>
    intro s _ hm
    have h2 : s.queue.length ≤ crawlMeasure env base seed maxd s := Nat.le_add_left _ _
    have hq : s.queue.length = 0 := by omega
    exact List.length_eq_zero.1 hq
  | succ n ih =>
    intro s hinv hm
    rw [crawlRun_succ]
    cases hs : crawlStep env tsOf base maxd s with
    | none => exact crawlStep_none env tsOf base maxd s hs
    | some s' =>
      obtain ⟨hinv', hlt⟩ := crawlStep_inv_measure env tsOf base seed maxd s s' hs hinv
      exact ih s' hinv' (by omega)

/-- Fuel sufficient to drain the frontier from the initial state. -/
def crawlFuel (env : String → Option Page) (seed : String) (maxd : Nat) : Nat :=
  (disc env (netlocOf seed) seed maxd).card *
    (linkBound env (netlocOf seed) seed maxd + 2) + 1

theorem crawlInit_inv (env : String → Option Page) (seed : String) (maxd : Nat) :
    crawlInv env (netlocOf seed) seed maxd (crawlInit seed) := by
  refine ⟨List.nodup_nil, fun u hu => absurd hu (List.not_mem_nil u), ?_⟩
  intro p hp _
  rw [List.mem_singleton.1 hp]
  exact Finset.mem_singleton_self seed

theorem crawlMeasure_init (env : String → Option Page) (seed : String) (maxd : Nat) :
    crawlMeasure env (netlocOf seed) seed maxd (crawlInit seed) =
      crawlFuel env seed maxd := by
  unfold crawlMeasure crawlFuel crawlInit
  simp

/-- C1: the visited set only ever grows along the crawl, its size never
exceeds the number of distinct URLs discoverable from the seed within
`maxDepth` hops of admissible links, and after an explicitly computable
amount of work (`crawlFuel`) the frontier is empty and stays empty, so the
crawl terminates. -/
theorem claimC1_crawl_terminates (env : String → Option Page) (tsOf : String → String)
    (seed : String) (maxd : Nat) :
    (∀ fuel k, (crawl env tsOf seed maxd fuel).visited ⊆
        (crawl env tsOf seed maxd (fuel + k)).visited) ∧
    (∀ fuel, (crawl env tsOf seed maxd fuel).visited.length ≤
        (disc env (netlocOf seed) seed maxd).card) ∧
    (∀ k, (crawl env tsOf seed maxd (crawlFuel env seed maxd + k)).queue = []) := by
  refine ⟨?_, ?_, ?_⟩
  · intro fuel k
    unfold crawl
    rw [crawlRun_add]
    exact crawlRun_visited_subset env tsOf (netlocOf seed) maxd k _
  · intro fuel
    have hinv := crawlRun_inv env tsOf (netlocOf seed) maxd
      (crawlInv env (netlocOf seed) seed maxd)
      (fun s s' hs hi =>
        (crawlStep_inv_measure env tsOf (netlocOf seed) seed maxd s s' hs hi).1)
      fuel (crawlInit seed) (crawlInit_inv env seed maxd)
    obtain ⟨hnd, hvd, _⟩ := hinv
    calc (crawl env tsOf seed maxd fuel).visited.length
        = (crawl env tsOf seed maxd fuel).visited.toFinset.card :=
          (List.toFinset_card_of_nodup hnd).symm
      _ ≤ _ := Finset.card_le_card fun x hx => hvd x (List.mem_toFinset.1 hx)
  · intro k
    unfold crawl
    rw [crawlRun_add]
    have hempty : (crawlRun env tsOf (netlocOf seed) maxd (crawlFuel env seed maxd)
        (crawlInit seed)).queue = [] :=
      crawlRun_empties env tsOf (netlocOf seed) seed maxd _ _
        (crawlInit_inv env seed maxd) (le_of_eq (crawlMeasure_init env seed maxd))
    rw [crawlRun_none env tsOf (netlocOf seed) maxd _
      (crawlStep_of_empty env tsOf (netlocOf seed) maxd _ hempty) k]
    exact hempty

theorem claimC1_witness :
    (crawl envC7 (fun _ => "ts") "http://ex.com/governance/a" 2 1).visited.length ≤
      (disc envC7 (netlocOf "http://ex.com/governance/a")
        "http://ex.com/governance/a" 2).card :=
  (claimC1_crawl_terminates envC7 (fun _ => "ts") "http://ex.com/governance/a" 2).2.1 1

/-! ## Claim C5 -/

/-- How `segStep` acts on a non-heading element above the threshold. -/
theorem segStep_emit (url dt ts : String) (st : SegState) (e : Element)
    (hlen : 20 ≤ e.text.length) (htag : ¬headingTags.contains e.tag = true) :
    segStep url dt ts st e =
      { st with chunks := st.chunks ++ [{
          source_url := url, document_title := dt, organization := "Halows Co., Ltd."
          document_type := "governance_policy", section_title := st.current_section
          section_level := st.current_section_level, chapter := st.current_chapter
          article := st.current_article, content_type := e.tag, text := e.text
          char_count := e.text.length, chunk_id := generate_chunk_id e.text
          extracted_at := ts }] } := by
  unfold segStep
  rw [if_neg (seg_guard_false hlen), if_neg htag]

/-- How `segStep` acts on a heading above the threshold whose text starts
with "article" (and not with "chapter"). -/
theorem segStep_heading_article (url dt ts : String) (st : SegState) (e : Element)
    (hlen : 20 ≤ e.text.length) (htag : headingTags.contains e.tag = true)
    (hart : strStartsWith (strLower e.text) "article" = true)
    (hchap : strStartsWith (strLower e.text) "chapter" = false) :
    segStep url dt ts st e =
      { current_section := some e.text
        current_section_level := some e.tag
        current_chapter := st.current_chapter
        current_article := some e.text
        chunks := st.chunks ++ [{
          source_url := url, document_title := dt, organization := "Halows Co., Ltd."
          document_type := "governance_policy", section_title := some e.text
          section_level := some e.tag, chapter := st.current_chapter
          article := some e.text, content_type := e.tag, text := e.text
          char_count := e.text.length, chunk_id := generate_chunk_id e.text
          extracted_at := ts }] } := by
  unfold segStep
  rw [if_neg (seg_guard_false hlen), if_pos htag]
  simp only [hart, hchap, Bool.false_eq_true, if_true, if_false]

/-- The page of the C5 scenario: heading, two paragraphs, heading, paragraph. -/
def mkPgC5 (A1 t1 t2 A2 t3 : String) : Page :=
  { title := some "Policies"
    elements := [⟨"h2", A1⟩, ⟨"p", t1⟩, ⟨"p", t2⟩, ⟨"h2", A2⟩, ⟨"p", t3⟩]
    tables := []
    links := [] }

/-- C5 counterexample: with the literal headings "Article 5" and "Article 6"
(9 characters each, below `main.py`'s 20-character guard that is applied
before the heading branch) the hierarchy is never updated, so all three
paragraph chunks carry article label `None` — not "Article 5"/"Article 6"
as the claim states. -/
theorem claimC5_counterexample :
    ((extract_page_content
        (mkPgC5 "Article 5" "First paragraph with enough characters here."
          "Second paragraph with enough characters too." "Article 6"
          "Third paragraph with plenty of characters.")
        "http://ex.com/gov" "ts").filter fun c => c.content_type == "p").map
      (fun c => c.article) = [none, none, none] ∧
    ((extract_page_content
        (mkPgC5 "Article 5" "First paragraph with enough characters here."
          "Second paragraph with enough characters too." "Article 6"
          "Third paragraph with plenty of characters.")
        "http://ex.com/gov" "ts").filter fun c => c.content_type == "p").map
      (fun c => c.article) ≠ [some "Article 5", some "Article 5", some "Article 6"] := by
  constructor
  · decide
  · decide

/-- C5 amended: the scenario holds once the heading texts themselves pass the
20-character length guard (which in `main.py` is applied before the heading
branch): for headings starting with "article" and three sufficiently long
paragraphs, the three paragraph chunks carry the first, first and second
heading as their article label. -/
theorem claimC5_amended (A1 t1 t2 A2 t3 url ts : String)
    (hA1 : 20 ≤ A1.length) (hA2 : 20 ≤ A2.length)
    (ht1 : 20 ≤ t1.length) (ht2 : 20 ≤ t2.length) (ht3 : 20 ≤ t3.length)
    (hart1 : strStartsWith (strLower A1) "article" = true)
    (hart2 : strStartsWith (strLower A2) "article" = true)
    (hch1 : strStartsWith (strLower A1) "chapter" = false)
    (hch2 : strStartsWith (strLower A2) "chapter" = false) :
    ((extract_page_content (mkPgC5 A1 t1 t2 A2 t3) url ts).filter fun c =>
        c.content_type == "p").map (fun c => c.article) =
      [some A1, some A1, some A2] := by
  have e1 : List.filter (fun e => allowed_tags.contains e.tag)
      [(⟨"h2", A1⟩ : Element), ⟨"p", t1⟩, ⟨"p", t2⟩, ⟨"h2", A2⟩, ⟨"p", t3⟩] =
      [⟨"h2", A1⟩, ⟨"p", t1⟩, ⟨"p", t2⟩, ⟨"h2", A2⟩, ⟨"p", t3⟩] := by
    have hh2 : allowed_tags.contains "h2" = true := by decide
    have hp : allowed_tags.contains "p" = true := by decide
    rw [List.filter_cons, if_pos hh2, List.filter_cons, if_pos hp,
      List.filter_cons, if_pos hp, List.filter_cons, if_pos hh2,
      List.filter_cons, if_pos hp, List.filter_nil]
  have hth2 : headingTags.contains "h2" = true := by decide
  have htp : ¬headingTags.contains "p" = true := by decide
  unfold extract_page_content
  simp only [mkPgC5]
  rw [e1, List.foldl_cons,
    segStep_heading_article _ _ _ _ ⟨"h2", A1⟩ hA1 hth2 hart1 hch1,
    List.foldl_cons, segStep_emit _ _ _ _ ⟨"p", t1⟩ ht1 htp,
    List.foldl_cons, segStep_emit _ _ _ _ ⟨"p", t2⟩ ht2 htp,
    List.foldl_cons,
    segStep_heading_article _ _ _ _ ⟨"h2", A2⟩ hA2 hth2 hart2 hch2,
    List.foldl_cons, segStep_emit _ _ _ _ ⟨"p", t3⟩ ht3 htp,
    List.foldl_nil]
  simp

theorem claimC5_witness :
    ((extract_page_content
        (mkPgC5 "Article 5: Purpose and Scope of the Policy"
          "First paragraph with enough characters here."
          "Second paragraph with enough characters too."
          "Article 6: Composition of the Governance Board"
          "Third paragraph with plenty of characters.")
        "http://ex.com/gov" "ts").filter fun c => c.content_type == "p").map
      (fun c => c.article) =
      [some "Article 5: Purpose and Scope of the Policy",
       some "Article 5: Purpose and Scope of the Policy",
       some "Article 6: Composition of the Governance Board"] :=
  claimC5_amended "Article 5: Purpose and Scope of the Policy"
    "First paragraph with enough characters here."
    "Second paragraph with enough characters too."
    "Article 6: Composition of the Governance Board"
    "Third paragraph with plenty of characters." "http://ex.com/gov" "ts"
    (by decide) (by decide) (by decide) (by decide) (by decide)
    (by decide) (by decide) (by decide) (by decide)

theorem claimC4_witness :
    (generate_chunk_id "governance").length = 16 ∧
    ((extract_page_content pgRepeatA "http://ex.com/one" "2024-01-01").getD 0 dChunk).chunk_id =
      ((extract_page_content pgRepeatB "http://ex.com/two" "2024-02-02").getD 0 dChunk).chunk_id :=
  ⟨(claimC4_identifier "governance").1,
   (claimC4_identifier "governance").2.2.2.2.1 pgRepeatA "http://ex.com/one" "2024-01-01"
      pgRepeatB "http://ex.com/two" "2024-02-02" _ _
      (getD_mem _ 0 dChunk (by decide)) (getD_mem _ 0 dChunk (by decide)) (by decide)⟩

end Webscrap
